import Mathlib

/-!
Verification of the HAT_Code RF-sensor readout program.

The development shallowly embeds the parts of the program that the
properties below speak about:

* `NanoVNA.scan` (src/nanovna.py): the segmented sweep loop that slices the
  stored frequency axis into device-capacity segments, issues one scan and
  two `data` commands per segment, and concatenates the responses.
* `NanoVNA.fetch_data` (src/nanovna.py): the byte-at-a-time reader that
  accumulates response lines until a line ends with the prompt `ch>`.
* `NanoVNA.data` (src/nanovna.py): the per-line numeric parse of a `data`
  response.
* `RFMultiplexer._detect_bit` (src/rf_mux.py, src/main.py): the dip-detection
  decision over windowed minima of `20*log10(|s11|)`.
* `SwitchAdapter.switchPort` (src/switch.py): the GPIO control-pin map.

Machine floating point is embedded as exact arithmetic over `ℚ` (every float
is a rational, so the embedded functions agree with the source on the
structural properties proved here); the decibel computation, which uses a
real logarithm, is embedded over `ℝ`/`ℂ`.
-/

namespace HAT

/-! ### Segmented sweep (`NanoVNA.scan`) -/

/-- `segment_length = 101` in `NanoVNA.scan`: the per-request device capacity. -/
def segmentLength : ℕ := 101

/-- `np.linspace(a, b, n)`: `n` evenly spaced values from `a` to `b` inclusive.
For `n = 1` numpy returns `[a]`, which the formula reproduces because the
denominator `n - 1` is `0` and division by zero is `0` in `ℚ`. -/
def linspace (a b : ℚ) (n : ℕ) : List ℚ :=
  (List.range n).map (fun (i : ℕ) => a + (b - a) * (i : ℚ) / ((n - 1 : ℕ) : ℚ))

/-- The slicing performed by the `while len(freqs) > 0` loop of `NanoVNA.scan`:
each iteration consumes `min(segment_length, len(freqs))` leading points
(`length = min(segment_length, len(freqs))`; `freqs = freqs[segment_length:]`). -/
def segments (l : List ℚ) : List (List ℚ) :=
  if l = [] then []
  else l.take segmentLength :: segments (l.drop segmentLength)
termination_by l.length
decreasing_by
  simp only [List.length_drop]
  have hl : l ≠ [] := by assumption
  have : 0 < l.length := List.length_pos.mpr hl
  simp only [segmentLength]
  omega

/-- The realized sub-axis contributed by one segment slice `s`:
`np.linspace(seg_start, seg_stop, length)` with `seg_start = freqs[0]`,
`seg_stop = freqs[length - 1]`, `length = len(s)`. -/
def subAxis (s : List ℚ) : List ℚ :=
  linspace (s.headD 0) (s.getD (s.length - 1) 0) s.length

/-- The body of `NanoVNA.scan`'s loop, carrying the index `k` of the current
segment. `dev seg chan` models the device: the array parsed from the response
to the `data chan` command issued while scanning segment `seg` (a complex
sample is a (real, imaginary) pair). The loop appends the channel responses
and the segment's realized linear sub-axis with no length validation. -/
def scanGo (dev : ℕ → ℕ → List (ℚ × ℚ)) (k : ℕ) (freqs : List ℚ) :
    List (ℚ × ℚ) × List (ℚ × ℚ) × List ℚ :=
  if freqs = [] then ([], [], [])
  else
    let len := min segmentLength freqs.length
    let segStart := freqs.headD 0
    let segStop := freqs.getD (len - 1) 0
    let rest := scanGo dev (k + 1) (freqs.drop segmentLength)
    (dev k 0 ++ rest.1, dev k 1 ++ rest.2.1,
      linspace segStart segStop len ++ rest.2.2)
termination_by freqs.length
decreasing_by
  simp only [List.length_drop]
  have hl : freqs ≠ [] := by assumption
  have : 0 < freqs.length := List.length_pos.mpr hl
  simp only [segmentLength]
  omega

/-- `NanoVNA.scan()`: returns `(array0, array1)` together with the realized
frequency axis `frequencies_used` (stored back into `self._frequencies`). -/
def scan (dev : ℕ → ℕ → List (ℚ × ℚ)) (freqs : List ℚ) :
    List (ℚ × ℚ) × List (ℚ × ℚ) × List ℚ :=
  scanGo dev 0 freqs

/-- The realized frequency axis of a scan (independent of the device's data
responses: only the slicing of `freqs` determines it). -/
def realizedAxis (freqs : List ℚ) : List ℚ :=
  (scan (fun _ _ => []) freqs).2.2

/-! ### Prompt-delimited response fetch (`NanoVNA.fetch_data`) -/

/-- The prompt sentinel test: `line.endswith('ch>')` with the line kept as a
character list. -/
def endsWithPrompt (line : List Char) : Bool :=
  List.isSuffixOf ['c', 'h', '>'] line

/-- The body of `NanoVNA.fetch_data`'s `while True` loop, one byte at a time:
skip `\r`, append the byte to the current line, flush the line into `result`
on `\n`, stop and return `result` when the current line ends with `ch>`.
The loop has **no timeout**: when the modelled input stream is exhausted
without the sentinel, the source blocks forever on `serial.read()`; this is
embedded as `none`. -/
def fetchGo (result line : List Char) : List Char → Option (List Char)
  | [] => none
  | c :: rest =>
    if c = '\r' then fetchGo result line rest
    else
      let line' := line ++ [c]
      if c = '\n' then fetchGo (result ++ line') [] rest
      else if endsWithPrompt line' then some result
      else fetchGo result line' rest

/-- `NanoVNA.fetch_data()` on a stream of incoming bytes. -/
def fetchData (input : List Char) : Option (List Char) :=
  fetchGo [] [] input

/-- Whether the reader's stopping condition is ever reached on the stream:
tracking only the current line, does some line (reset at `\n`, `\r` skipped)
come to end with the prompt `ch>`? -/
def promptFound (line : List Char) : List Char → Bool
  | [] => false
  | c :: rest =>
    if c = '\r' then promptFound line rest
    else if c = '\n' then promptFound [] rest
    else if endsWithPrompt (line ++ [c]) then true
    else promptFound (line ++ [c]) rest

/-! ### Data-response parsing (`NanoVNA.data`) -/

/-- One whitespace-split token of a response line: either a token `float()`
accepts (carrying its value) or one on which `float()` raises `ValueError`. -/
inductive Token where
  | num (q : ℚ)
  | other
deriving DecidableEq

/-- Python `float(tok)`: `none` models the `ValueError` raise. -/
def pyFloat : Token → Option ℚ
  | .num q => some q
  | .other => none

/-- One iteration of `NanoVNA.data`'s loop on a nonempty line
`d = line.strip().split(' ')`: `float(d[0]) + float(d[1])*1j`. A line with
fewer than two tokens raises `IndexError` at `d[1]` (or `ValueError` at
`float(d[0])` for the lone empty token of a whitespace line); a non-numeric
token raises `ValueError`. Any raise is `none`. -/
def dataLine : List Token → Option (ℚ × ℚ)
  | t0 :: t1 :: _ => do
    let re ← pyFloat t0
    let im ← pyFloat t1
    pure (re, im)
  | _ => none

/-- `NanoVNA.data`: parse every nonempty line of the response in order. An
exception on any line aborts the whole call (`none`) — there is no skipping. -/
def dataParse : List (List Token) → Option (List (ℚ × ℚ))
  | [] => some []
  | line :: rest => do
    let sample ← dataLine line
    let xs ← dataParse rest
    pure (sample :: xs)

/-! ### Dip detection (`RFMultiplexer._detect_bit`, src/rf_mux.py and
src/main.py) -/

/-- `self.hi_start = bit_start + bit_width + bit_padding`
(`RFMultiplexer.__init__`; all three arguments are `int`-typed). -/
def hiStart (loStart width padding : ℤ) : ℤ :=
  loStart + width + padding

/-- Configuration held by `RFMultiplexer`: `lo_start`, `bit_width`,
`bit_padding` (ints, MHz) and the dip threshold (`-10` dB in src/rf_mux.py,
`-5` dB in src/main.py — an int literal in both). -/
structure MuxConfig where
  loStart : ℤ
  width : ℤ
  padding : ℤ
  threshold : ℤ
deriving DecidableEq

/-- The result of `_detect_bit`: bit 0, bit 1, or Python `None`
(undetermined). -/
inductive BitDecision where
  | zero
  | one
  | undetermined
deriving DecidableEq

/-- The exception `np.min` raises on an empty masked array (the empty
detection window of the spec's `ConfigurationError` taxonomy entry). -/
inductive DetectError where
  | emptyWindow
deriving DecidableEq

open scoped Classical in
/-- `s11_db = 20 * np.log10(np.abs(s11))`, per sample. `np.log10 0 = -inf`,
embedded as `⊥` in `WithBot ℝ`. -/
noncomputable def s11DbVal (s : ℂ) : WithBot ℝ :=
  if Complex.abs s = 0 then ⊥ else ((20 * Real.logb 10 (Complex.abs s) : ℝ) : WithBot ℝ)

open scoped Classical in
/-- `s11_db[mask]` for the boolean mask `(frequencies >= lo) & (frequencies
<= hi)`: the dB values whose paired frequency lies in the closed window. -/
noncomputable def windowVals (lo hi : ℝ) (frequencies : List ℝ)
    (db : List (WithBot ℝ)) : List (WithBot ℝ) :=
  ((frequencies.zip db).filter (fun p => decide (lo ≤ p.1 ∧ p.1 ≤ hi))).map Prod.snd

/-- The low-window masked dB values of `_detect_bit`:
`lo_range = (lo_start * 1e6, (lo_start + bit_width) * 1e6)`. -/
noncomputable def loVals (cfg : MuxConfig) (frequencies : List ℝ) (s11 : List ℂ) :
    List (WithBot ℝ) :=
  windowVals ((cfg.loStart : ℝ) * 10 ^ 6) (((cfg.loStart + cfg.width : ℤ) : ℝ) * 10 ^ 6)
    frequencies (s11.map s11DbVal)

/-- The high-window masked dB values of `_detect_bit`:
`hi_range = (hi_start * 1e6, (hi_start + bit_width) * 1e6)`. -/
noncomputable def hiVals (cfg : MuxConfig) (frequencies : List ℝ) (s11 : List ℂ) :
    List (WithBot ℝ) :=
  windowVals ((hiStart cfg.loStart cfg.width cfg.padding : ℝ) * 10 ^ 6)
    (((hiStart cfg.loStart cfg.width cfg.padding + cfg.width : ℤ) : ℝ) * 10 ^ 6)
    frequencies (s11.map s11DbVal)

/-- `RFMultiplexer._detect_bit`: compute `lo_dip = np.min(s11_db[lo_mask])`
and `hi_dip = np.min(s11_db[hi_mask])` (each raising on an empty mask), then
decide in fixed order: `lo_dip <= dip_threshold` gives 0, else
`hi_dip <= dip_threshold` gives 1, else `None`. -/
noncomputable def detectBit (cfg : MuxConfig) (frequencies : List ℝ) (s11 : List ℂ) :
    Except DetectError BitDecision :=
  match (loVals cfg frequencies s11).min? with
  | none => .error .emptyWindow
  | some loDip =>
    match (hiVals cfg frequencies s11).min? with
    | none => .error .emptyWindow
    | some hiDip =>
      if loDip ≤ ((cfg.threshold : ℝ) : WithBot ℝ) then .ok .zero
      else if hiDip ≤ ((cfg.threshold : ℝ) : WithBot ℝ) then .ok .one
      else .ok .undetermined

/-! ### GPIO switch control (`SwitchAdapter.switchPort`, src/switch.py) -/

/-- The five GPIO control pins of the PE42512 switch. -/
structure PinState where
  ls : ℕ
  v1 : ℕ
  v2 : ℕ
  v3 : ℕ
  v4 : ℕ
deriving DecidableEq

/-- `SwitchAdapter._set_control_pins(ls, v4, v3, v2, v1)`: assigns all five
pin values. -/
def setControlPins (s : PinState) (ls v4 v3 v2 v1 : ℕ) : PinState :=
  { s with ls := ls, v1 := v1, v2 := v2, v3 := v3, v4 := v4 }

/-- The `control_bits` table of `SwitchAdapter.switchPort`, one row per port
0–11, unpacked in the source as `v4, v3, v2, v1 = control_bits[port_no]`. -/
def controlBits : List (ℕ × ℕ × ℕ × ℕ) :=
  [(0, 0, 0, 0),
   (1, 0, 0, 0),
   (0, 1, 0, 0),
   (1, 1, 0, 0),
   (0, 0, 1, 0),
   (1, 0, 1, 0),
   (0, 1, 1, 0),
   (1, 1, 1, 0),
   (0, 0, 0, 1),
   (1, 0, 0, 1),
   (0, 1, 0, 1),
   (1, 1, 0, 1)]

/-- `SwitchAdapter.switchPort(port_no)`: raise `ValueError` (second
component `some message`, pins untouched) unless `0 <= port_no <= 11`;
otherwise set `ls = 0` and the V pins from the table row. -/
def switchPort (port : ℤ) (s : PinState) : PinState × Option String :=
  if ¬(0 ≤ port ∧ port ≤ 11) then (s, some "Port number must be between 0 and 11")
  else
    let row := controlBits.getD port.toNat (0, 0, 0, 0)
    (setControlPins s 0 row.1 row.2.1 row.2.2.1 row.2.2.2, none)

/-! ## Structural lemmas about the segmented sweep -/

theorem segments_nil : segments [] = [] := by
  rw [segments]
  simp

theorem segments_ne_nil (l : List ℚ) (h : l ≠ []) :
    segments l = l.take segmentLength :: segments (l.drop segmentLength) := by
  rw [segments]
  simp [h]

theorem segments_join (l : List ℚ) : (segments l).flatten = l := by
  induction l using segments.induct with
  | case1 => simp [segments_nil]
  | case2 l h ih =>
    rw [segments_ne_nil l h]
    simp [ih]

theorem segments_length (l : List ℚ) :
    (segments l).length = (l.length + segmentLength - 1) / segmentLength := by
  induction l using segments.induct with
  | case1 => simp [segments_nil, segmentLength]
  | case2 l h ih =>
    rw [segments_ne_nil l h]
    have hl : 0 < l.length := List.length_pos.mpr h
    simp only [List.length_cons, ih, List.length_drop, segmentLength] at *
    omega

theorem segments_dropLast (l : List ℚ) :
    ∀ s ∈ (segments l).dropLast, s.length = segmentLength := by
  induction l using segments.induct with
  | case1 => simp [segments_nil]
  | case2 l h ih =>
    rw [segments_ne_nil l h]
    by_cases hd : l.drop segmentLength = []
    · simp [hd, segments_nil]
    · rw [List.dropLast_cons_of_ne_nil]
      · intro s hs
        rcases List.mem_cons.mp hs with rfl | hs
        · have hl : segmentLength ≤ l.length := by
            by_contra hlt
            push_neg at hlt
            exact hd (List.drop_eq_nil_of_le (le_of_lt hlt))
          simp [List.length_take, hl]
        · exact ih s hs
      · simp [segments_ne_nil _ hd]

theorem segments_getLast_length (l : List ℚ) (h : l ≠ []) :
    ((segments l).getLast?).map List.length =
      some (if l.length % segmentLength = 0 then segmentLength
            else l.length % segmentLength) := by
  induction l using segments.induct with
  | case1 => simp at h
  | case2 l hne ih =>
    rw [segments_ne_nil l hne]
    have hl : 0 < l.length := List.length_pos.mpr hne
    by_cases hd : l.drop segmentLength = []
    · have hlen : l.length ≤ segmentLength := by
        have : (l.drop segmentLength).length = 0 := by simp [hd]
        simp only [List.length_drop] at this
        omega
      rw [hd, segments_nil, List.getLast?_singleton]
      simp only [Option.map_some', List.length_take, Option.some_inj]
      simp only [segmentLength] at *
      split_ifs <;> omega
    · have hcons : (List.take segmentLength l :: segments (List.drop segmentLength l)).getLast?
          = (segments (List.drop segmentLength l)).getLast? := by
        rw [← List.singleton_append]
        exact List.getLast?_append_of_ne_nil _ (by simp [segments_ne_nil _ hd])
      rw [hcons, ih hd]
      have hlen : segmentLength ≤ l.length := by
        by_contra hlt
        push_neg at hlt
        exact hd (List.drop_eq_nil_of_le (le_of_lt hlt))
      simp only [List.length_drop, Option.some_inj]
      have hmod : (l.length - segmentLength) % segmentLength = l.length % segmentLength := by
        simp only [segmentLength] at *
        omega
      rw [hmod]

theorem linspace_length (a b : ℚ) (n : ℕ) : (linspace a b n).length = n := by
  simp [linspace]

theorem linspace_head? (a b : ℚ) (n : ℕ) (h : n ≠ 0) :
    (linspace a b n).head? = some a := by
  obtain ⟨m, rfl⟩ := Nat.exists_eq_succ_of_ne_zero h
  simp [linspace, List.range_succ_eq_map]

theorem linspace_getLast?_two (a b : ℚ) (m : ℕ) :
    (linspace a b (m + 2)).getLast? = some b := by
  have hne : ((m + 1 : ℕ) : ℚ) ≠ 0 := Nat.cast_ne_zero.mpr (Nat.succ_ne_zero m)
  rw [linspace, List.range_succ]
  simp only [List.map_append, List.map_cons, List.map_nil, List.getLast?_concat]
  congr 1
  push_cast
  field_simp

theorem subAxis_length (s : List ℚ) : (subAxis s).length = s.length := by
  simp [subAxis, linspace_length]

theorem subAxis_head? (s : List ℚ) (h : s ≠ []) : (subAxis s).head? = s.head? := by
  obtain ⟨x, t, rfl⟩ := List.exists_cons_of_ne_nil h
  rw [subAxis, linspace_head? _ _ _ (by simp)]
  simp

theorem getD_last (s : List ℚ) (h : s ≠ []) :
    some (s.getD (s.length - 1) 0) = s.getLast? := by
  have hlt : s.length - 1 < s.length := by
    have := List.length_pos.mpr h
    omega
  rw [List.getD_eq_getElem _ _ hlt, List.getLast?_eq_getElem?, List.getElem?_eq_getElem hlt]

theorem subAxis_getLast? (s : List ℚ) (h : s ≠ []) : (subAxis s).getLast? = s.getLast? := by
  rw [← getD_last s h]
  match s, h with
  | [x], _ =>
    norm_num [subAxis, linspace]
  | x :: y :: u, _ =>
    have hlen : (x :: y :: u).length = u.length + 2 := rfl
    rw [subAxis, hlen, linspace_getLast?_two]

theorem linspace_chain' (a b : ℚ) (n : ℕ) (hab : a < b) :
    (linspace a b n).Chain' (· < ·) := by
  match n with
  | 0 => simp [linspace]
  | 1 => simp [linspace]
  | (m + 2) =>
    rw [linspace, List.chain'_map]
    rw [show m + 2 = (m + 1).succ from rfl, List.chain'_range_succ]
    intro i hi
    have hba : (0:ℚ) < b - a := sub_pos.mpr hab
    have hd : (0:ℚ) < (((m + 1).succ - 1 : ℕ) : ℚ) := by
      have he : ((m + 1).succ - 1 : ℕ) = m + 1 := rfl
      rw [he]
      push_cast
      positivity
    have hi1 : (i : ℚ) < ((i.succ : ℕ) : ℚ) := by
      exact_mod_cast Nat.lt_succ_self i
    exact add_lt_add_left
      (div_lt_div_of_pos_right (mul_lt_mul_of_pos_left hi1 hba) hd) a

theorem take_ne_nil (l : List ℚ) (h : l ≠ []) : l.take segmentLength ≠ [] := by
  simp only [ne_eq, List.take_eq_nil_iff]
  push_neg
  exact ⟨by simp [segmentLength], h⟩

theorem subAxis_chain' (s : List ℚ) (hs : s.Chain' (· < ·)) :
    (subAxis s).Chain' (· < ·) := by
  match s with
  | [] => simp [subAxis, linspace]
  | [x] => simp [subAxis, linspace]
  | x :: y :: u =>
    have hlt : (x :: y :: u).length - 1 < (x :: y :: u).length := by simp
    rw [subAxis, List.getD_eq_getElem _ _ hlt]
    apply linspace_chain'
    show (x :: y :: u)[0] < _
    exact List.pairwise_iff_getElem.mp (List.chain'_iff_pairwise.mp hs) 0 _ (by simp) hlt
      (by simp)

theorem subAxis_ne_nil (s : List ℚ) (h : s ≠ []) : subAxis s ≠ [] := by
  intro hc
  apply h
  have hlen := subAxis_length s
  rw [hc] at hlen
  exact List.length_eq_zero.mp hlen.symm

theorem axis_head? (l : List ℚ) (h : l ≠ []) :
    (((segments l).map subAxis).flatten).head? = l.head? := by
  rw [segments_ne_nil l h]
  simp only [List.map_cons, List.flatten_cons]
  rw [List.head?_append_of_ne_nil _ (subAxis_ne_nil _ (take_ne_nil l h))]
  rw [subAxis_head? _ (take_ne_nil l h)]
  obtain ⟨x, t, rfl⟩ := List.exists_cons_of_ne_nil h
  rw [show segmentLength = 100 + 1 from rfl, List.take_succ_cons]
  rfl

theorem axis_flatten_chain' (l : List ℚ) (hl : l.Chain' (· < ·)) :
    (((segments l).map subAxis).flatten).Chain' (· < ·) := by
  induction l using segments.induct with
  | case1 => simp [segments_nil]
  | case2 l h ih =>
    rw [segments_ne_nil l h]
    simp only [List.map_cons, List.flatten_cons]
    rw [List.chain'_append]
    have hl' := hl
    conv at hl' => rw [← List.take_append_drop segmentLength l]
    rw [List.chain'_append] at hl'
    obtain ⟨htake, hdrop, hbound⟩ := hl'
    refine ⟨subAxis_chain' _ htake, ih hdrop, ?_⟩
    intro x hx y hy
    rw [subAxis_getLast? _ (take_ne_nil l h)] at hx
    by_cases hd : l.drop segmentLength = []
    · rw [hd, segments_nil] at hy
      simp at hy
    · rw [axis_head? _ hd] at hy
      exact hbound x hx y hy

theorem axis_flatten_length (l : List ℚ) :
    (((segments l).map subAxis).flatten).length = l.length := by
  rw [List.length_flatten]
  have hmap : (((segments l).map subAxis).map List.length) = (segments l).map List.length := by
    rw [List.map_map]
    exact List.map_congr_left (fun s _ => subAxis_length s)
  rw [hmap]
  rw [← List.length_flatten, segments_join]

theorem scanGo_nil (dev : ℕ → ℕ → List (ℚ × ℚ)) (k : ℕ) :
    scanGo dev k [] = ([], [], []) := by
  rw [scanGo]
  simp

theorem scanGo_ne_nil (dev : ℕ → ℕ → List (ℚ × ℚ)) (k : ℕ) (l : List ℚ) (h : l ≠ []) :
    scanGo dev k l =
      (dev k 0 ++ (scanGo dev (k + 1) (l.drop segmentLength)).1,
       dev k 1 ++ (scanGo dev (k + 1) (l.drop segmentLength)).2.1,
       linspace (l.headD 0) (l.getD (min segmentLength l.length - 1) 0)
           (min segmentLength l.length) ++
         (scanGo dev (k + 1) (l.drop segmentLength)).2.2) := by
  rw [scanGo]
  simp [h]

theorem take_subAxis (l : List ℚ) (h : l ≠ []) :
    subAxis (l.take segmentLength) =
      linspace (l.headD 0) (l.getD (min segmentLength l.length - 1) 0)
        (min segmentLength l.length) := by
  have hlen : (l.take segmentLength).length = min segmentLength l.length :=
    List.length_take ..
  rw [subAxis, hlen]
  have hpos : 0 < l.length := List.length_pos.mpr h
  have hmin : 0 < min segmentLength l.length := by
    simp only [segmentLength]
    omega
  congr 1
  · obtain ⟨x, t, rfl⟩ := List.exists_cons_of_ne_nil h
    rw [show segmentLength = 100 + 1 from rfl, List.take_succ_cons]
    rfl
  · have hi : min segmentLength l.length - 1 < (l.take segmentLength).length := by
      rw [hlen]
      omega
    have hi' : min segmentLength l.length - 1 < l.length := by
      clear hi
      omega
    rw [List.getD_eq_getElem _ _ hi, List.getD_eq_getElem _ _ hi']
    exact List.getElem_take l

theorem scanGo_axis (dev : ℕ → ℕ → List (ℚ × ℚ)) (k : ℕ) (l : List ℚ) :
    (scanGo dev k l).2.2 = ((segments l).map subAxis).flatten := by
  induction l using segments.induct generalizing k with
  | case1 => simp [scanGo_nil, segments_nil]
  | case2 l h ih =>
    rw [scanGo_ne_nil dev k l h, segments_ne_nil l h]
    simp only [List.map_cons, List.flatten_cons]
    rw [take_subAxis l h, ih]

theorem flatten_range_shift (f : ℕ → List (ℚ × ℚ)) (n k : ℕ) :
    ((List.range (n + 1)).map fun i => f (k + i)).flatten
      = f k ++ ((List.range n).map fun i => f (k + 1 + i)).flatten := by
  rw [List.range_succ_eq_map]
  simp only [List.map_cons, List.flatten_cons, List.map_map, Nat.add_zero]
  congr 1
  apply congrArg
  apply List.map_congr_left
  intro a _
  simp only [Function.comp_apply]
  congr 1
  omega

theorem scanGo_channels (dev : ℕ → ℕ → List (ℚ × ℚ)) (k : ℕ) (l : List ℚ) :
    (scanGo dev k l).1 =
      ((List.range (segments l).length).map (fun i => dev (k + i) 0)).flatten ∧
    (scanGo dev k l).2.1 =
      ((List.range (segments l).length).map (fun i => dev (k + i) 1)).flatten := by
  induction l using segments.induct generalizing k with
  | case1 => simp [scanGo_nil, segments_nil]
  | case2 l h ih =>
    rw [scanGo_ne_nil dev k l h, segments_ne_nil l h]
    obtain ⟨ih1, ih2⟩ := ih (k := k + 1)
    constructor
    · rw [List.length_cons, flatten_range_shift (fun i => dev i 0), ih1]
    · rw [List.length_cons, flatten_range_shift (fun i => dev i 1), ih2]

theorem realizedAxis_eq (l : List ℚ) :
    realizedAxis l = ((segments l).map subAxis).flatten := by
  rw [realizedAxis, scan, scanGo_axis]

theorem scan_axis_any_dev (dev : ℕ → ℕ → List (ℚ × ℚ)) (l : List ℚ) :
    (scan dev l).2.2 = realizedAxis l := by
  rw [scan, scanGo_axis, realizedAxis_eq]

theorem realizedAxis_length (l : List ℚ) :
    (realizedAxis l).length = l.length := by
  rw [realizedAxis_eq, axis_flatten_length]

theorem controlBits_inj : ∀ i j : Fin 12,
    (controlBits.getD i.val (0, 0, 0, 0)).1 = (controlBits.getD j.val (0, 0, 0, 0)).1 →
    (controlBits.getD i.val (0, 0, 0, 0)).2.1 = (controlBits.getD j.val (0, 0, 0, 0)).2.1 →
    (controlBits.getD i.val (0, 0, 0, 0)).2.2.1 = (controlBits.getD j.val (0, 0, 0, 0)).2.2.1 →
    (controlBits.getD i.val (0, 0, 0, 0)).2.2.2 = (controlBits.getD j.val (0, 0, 0, 0)).2.2.2 →
    i = j := by
  decide

theorem switchPort_valid (port : ℤ) (s : PinState) (h : 0 ≤ port ∧ port ≤ 11) :
    (switchPort port s).1 =
      { ls := 0,
        v1 := (controlBits.getD port.toNat (0, 0, 0, 0)).2.2.2,
        v2 := (controlBits.getD port.toNat (0, 0, 0, 0)).2.2.1,
        v3 := (controlBits.getD port.toNat (0, 0, 0, 0)).2.1,
        v4 := (controlBits.getD port.toNat (0, 0, 0, 0)).1 } := by
  rw [switchPort, if_neg (not_not_intro h)]
  rfl

theorem fetchGo_isSome (input : List Char) : ∀ result line : List Char,
    (fetchGo result line input).isSome = promptFound line input := by
  induction input with
  | nil =>
    intro result line
    rfl
  | cons c rest ih =>
    intro result line
    simp only [fetchGo, promptFound]
    split_ifs with h1 h2 h3
    · exact ih result line
    · exact ih (result ++ (line ++ [c])) []
    · rfl
    · exact ih result (line ++ [c])

/-! ## Claim theorems -/

/-- Claim C3: for every frequency axis of length `N ≥ 1` and segment capacity
`C = segmentLength = 101`, `NanoVNA.scan` partitions the axis into
`⌈N/C⌉ = (N + C - 1) / C` contiguous slices that tile the axis in order —
their concatenation is the axis itself, so they are pairwise non-overlapping
and order-preserving, and their lengths sum to `N` — each slice of length `C`
except the last, whose length is `N % C` when `N % C ≠ 0` and `C` otherwise. -/
theorem scan_partition (l : List ℚ) (h : l ≠ []) :
    (segments l).flatten = l ∧
    ((segments l).map List.length).sum = l.length ∧
    (segments l).length = (l.length + segmentLength - 1) / segmentLength ∧
    (∀ s ∈ (segments l).dropLast, s.length = segmentLength) ∧
    ((segments l).getLast?).map List.length =
      some (if l.length % segmentLength = 0 then segmentLength
            else l.length % segmentLength) := by
  refine ⟨segments_join l, ?_, segments_length l, segments_dropLast l,
    segments_getLast_length l h⟩
  rw [← List.length_flatten, segments_join]

/-- Witness for C3 at the concrete 3-point axis `[1, 2, 3]`. -/
theorem scan_partition_witness :
    (([1, 2, 3] : List ℚ) ≠ []) ∧ (segments [1, 2, 3]).flatten = [1, 2, 3] :=
  ⟨by decide, (scan_partition [1, 2, 3] (by decide)).1⟩

/-- Claim C4 counterexample: the 102-point axis `0, 1, …, 101` has
`N % C = 1`, so its partition has a trailing slice of length 1. The claim
says this slice is dropped and the realized axis has `N − 1 = 101` points;
`NanoVNA.scan` actually scans it — the final segment of length 1 is present
and the realized frequency axis contains all 102 points, not 101. -/
theorem scan_trailing_cex :
    (((List.range 102).map (fun (i : ℕ) => (i : ℚ))).length % segmentLength = 1) ∧
    ((segments ((List.range 102).map (fun (i : ℕ) => (i : ℚ)))).getLast?).map List.length
      = some 1 ∧
    (realizedAxis ((List.range 102).map (fun (i : ℕ) => (i : ℚ)))).length = 102 ∧
    ¬((realizedAxis ((List.range 102).map (fun (i : ℕ) => (i : ℚ)))).length = 102 - 1) := by
  have hlen : ((List.range 102).map (fun (i : ℕ) => (i : ℚ))).length = 102 := by
    simp
  have hne : ((List.range 102).map (fun (i : ℕ) => (i : ℚ))) ≠ [] := by
    intro hc
    rw [hc] at hlen
    simp at hlen
  refine ⟨?_, ?_, ?_, ?_⟩
  · rw [hlen]
    decide
  · rw [segments_getLast_length _ hne, hlen]
    norm_num [segmentLength]
  · rw [realizedAxis_length, hlen]
  · rw [realizedAxis_length, hlen]
    norm_num

/-- Claim C4 amended: no trailing slice is dropped. When the partition leaves
a trailing slice of length 1 (`N % C = 1`), `NanoVNA.scan` scans it like any
other segment and its point is kept: the realized frequency axis contains all
`N` points rather than `N − 1`. -/
theorem scan_no_trailing_drop (l : List ℚ) (h : l.length % segmentLength = 1) :
    (realizedAxis l).length = l.length :=
  realizedAxis_length l

/-- Witness for the amended C4 at the one-point axis `[5]` (`1 % 101 = 1`). -/
theorem scan_no_trailing_drop_witness :
    (([5] : List ℚ).length % segmentLength = 1) ∧
    (realizedAxis [5]).length = ([5] : List ℚ).length :=
  ⟨by decide, scan_no_trailing_drop [5] (by decide)⟩

/-- Claim C1 counterexample: a 3-point axis forms a single segment, and the
device answers each `data` command with only 2 samples. The claim requires
the scan to detect the length mismatch, retry, and ultimately fail with
`DataIncomplete` returning no partial SweepResult; `NanoVNA.scan` instead
returns normally with a 2-point channel array against the 3-point axis — a
partial result and no error. -/
theorem scan_short_segment_cex :
    (scan (fun _ _ => [((0 : ℚ), (0 : ℚ)), (0, 0)]) [1, 2, 3]).1.length = 2 ∧
    ([1, 2, 3] : List ℚ).length = 3 ∧
    (scan (fun _ _ => [((0 : ℚ), (0 : ℚ)), (0, 0)]) [1, 2, 3]).2.2.length = 3 := by
  have hseg : (segments [1, 2, 3]).length = 1 := by
    rw [segments_length]
    norm_num [segmentLength]
  have h := (scanGo_channels (fun _ _ => [((0 : ℚ), (0 : ℚ)), (0, 0)]) 0 [1, 2, 3]).1
  rw [hseg] at h
  refine ⟨?_, by decide, ?_⟩
  · rw [scan, h]
    decide
  · have ha := scan_axis_any_dev (fun _ _ => [((0 : ℚ), (0 : ℚ)), (0, 0)]) [1, 2, 3]
    rw [ha, realizedAxis_length]
    decide

/-- Claim C1 amended: `NanoVNA.scan` performs no length validation. After
fetching the two channel arrays for a segment it appends them
unconditionally: there is no retry, no attempt budget and no `DataIncomplete`
failure (the scan always returns), and each channel of the result is exactly
the concatenation of the per-segment device responses, whatever their
lengths. -/
theorem scan_appends_unconditionally (dev : ℕ → ℕ → List (ℚ × ℚ)) (l : List ℚ) :
    (scan dev l).1 =
      ((List.range (segments l).length).map (fun i => dev i 0)).flatten ∧
    (scan dev l).2.1 =
      ((List.range (segments l).length).map (fun i => dev i 1)).flatten := by
  have h := scanGo_channels dev 0 l
  simpa [scan] using h

/-- Claim C9: for every strictly increasing frequency axis, the realized
frequency axis produced by `NanoVNA.scan` — the concatenation of each
segment's `np.linspace(seg_start, seg_stop, length)` sub-axis — is strictly
increasing (ascending frequency order) and its length equals the sum of the
scanned segment lengths. -/
theorem scan_realized_axis_sorted (dev : ℕ → ℕ → List (ℚ × ℚ)) (l : List ℚ)
    (h : l.Chain' (· < ·)) :
    ((scan dev l).2.2).Chain' (· < ·) ∧
    ((scan dev l).2.2).length = ((segments l).map List.length).sum := by
  rw [scan_axis_any_dev, realizedAxis_eq]
  refine ⟨axis_flatten_chain' l h, ?_⟩
  rw [axis_flatten_length, ← List.length_flatten, segments_join]

/-- Witness for C9 at the concrete increasing axis `[1, 2]`. -/
theorem scan_realized_axis_sorted_witness :
    (([1, 2] : List ℚ).Chain' (· < ·)) ∧
    (((scan (fun _ _ => []) [1, 2]).2.2).Chain' (· < ·) ∧
      ((scan (fun _ _ => []) [1, 2]).2.2).length =
        ((segments [1, 2]).map List.length).sum) :=
  ⟨by norm_num [List.chain'_cons], scan_realized_axis_sorted (fun _ _ => []) [1, 2]
    (by norm_num [List.chain'_cons])⟩

/-- Claim C5 counterexample: the stream `"data 0\n1 2\n"` never contains the
prompt `ch>`. The claim says that once the timeout budget elapses the fetch
fails with a Timeout error carrying the partial accumulation; `fetch_data`
has no timeout at all — after consuming every available byte it is still
blocked inside `while True` on the next `serial.read()` (modelled `none`),
and its result type has no error case to carry a Timeout. -/
theorem fetch_data_timeout_cex :
    fetchData ['d', 'a', 't', 'a', ' ', '0', '\n', '1', ' ', '2', '\n'] = none ∧
    promptFound [] ['d', 'a', 't', 'a', ' ', '0', '\n', '1', ' ', '2', '\n'] = false := by
  decide

/-- Claim C5 amended: `fetch_data` returns its accumulated lines exactly when
some line of the stream comes to end with the prompt sentinel `ch>`; when the
prompt never arrives it never returns — it waits indefinitely for more bytes,
with no timeout budget and no Timeout error carrying the partial
accumulation. -/
theorem fetch_data_no_timeout (input : List Char) :
    (fetchData input).isSome = promptFound [] input :=
  fetchGo_isSome input [] []

/-- Claim C8 counterexample: a `data` response whose middle line is
malformed. The claim says the bad line is skipped with a warning and the
remaining valid samples `[(1, 2), (3, 4)]` are still returned (as they would
be for the two-line response without the bad line); `NanoVNA.data` instead
raises on the bad line and the whole call aborts with no samples. -/
theorem data_malformed_cex :
    dataParse [[Token.num 1, Token.num 2], [Token.other], [Token.num 3, Token.num 4]]
      = none ∧
    dataParse [[Token.num 1, Token.num 2], [Token.num 3, Token.num 4]]
      = some [(1, 2), (3, 4)] := by
  decide

/-- Claim C8 amended: a malformed data line (too few tokens, or a token
`float()` rejects) anywhere in a response makes the whole data-retrieval
call fail: `NanoVNA.data` propagates the exception and returns no samples
at all, rather than skipping the line. -/
theorem data_malformed_aborts (pre post : List (List Token)) (line : List Token)
    (h : dataLine line = none) :
    dataParse (pre ++ line :: post) = none := by
  induction pre with
  | nil =>
    simp [dataParse, h]
  | cons l ls ih =>
    cases hdl : dataLine l with
    | none => simp [dataParse, hdl]
    | some smp => simp [dataParse, hdl, ih]

/-- Witness for the amended C8: a concrete malformed middle line aborts the
concrete response. -/
theorem data_malformed_aborts_witness :
    dataLine [Token.other] = none ∧
    dataParse ([[Token.num 5, Token.num 6]] ++ [Token.other] :: [[Token.num 7, Token.num 8]])
      = none :=
  ⟨by decide, data_malformed_aborts [[Token.num 5, Token.num 6]]
    [[Token.num 7, Token.num 8]] [Token.other] (by decide)⟩

/-- Claim C7 counterexample: with `loStart = 10`, `width = 5`, `padding = 0`
— allowed by the claim's "every padding ≥ 0" — `hi_start = 15 = loStart +
width`, so `loStart + width < hiStart` fails, and the closed windows
`[10, 15]` and `[15, 20]` overlap at the shared point 15. -/
theorem windows_overlap_cex :
    hiStart 10 5 0 = 15 ∧
    ¬((10 : ℤ) + 5 < hiStart 10 5 0) ∧
    ((10 : ℤ) ≤ 15 ∧ (15 : ℤ) ≤ 10 + 5) ∧
    (hiStart 10 5 0 ≤ 15 ∧ (15 : ℤ) ≤ hiStart 10 5 0 + 5) := by
  decide

/-- Claim C7 amended: for every `loStart`, every `width ≥ 0` and every
**strictly positive** `padding ≥ 1`, `hi_start = loStart + width + padding`
satisfies `loStart + width < hi_start`, and the closed windows
`[loStart, loStart + width]` and `[hi_start, hi_start + width]` are
disjoint. -/
theorem windows_disjoint (loStart width padding : ℤ)
    (hw : 0 ≤ width) (hp : 1 ≤ padding) :
    loStart + width < hiStart loStart width padding ∧
    ∀ x : ℤ, ¬((loStart ≤ x ∧ x ≤ loStart + width) ∧
      (hiStart loStart width padding ≤ x ∧
        x ≤ hiStart loStart width padding + width)) := by
  refine ⟨?_, fun x hx => ?_⟩
  · simp only [hiStart]
    omega
  · simp only [hiStart] at hx
    omega

/-- Witness for the amended C7 at the src/rf_mux.py defaults
`(loStart, width, padding) = (10, 5, 1)`. -/
theorem windows_disjoint_witness :
    ((0 : ℤ) ≤ 5 ∧ (1 : ℤ) ≤ 1) ∧
    ((10 : ℤ) + 5 < hiStart 10 5 1 ∧
      ∀ x : ℤ, ¬(((10 : ℤ) ≤ x ∧ x ≤ 10 + 5) ∧
        (hiStart 10 5 1 ≤ x ∧ x ≤ hiStart 10 5 1 + 5))) :=
  ⟨⟨by decide, by decide⟩, windows_disjoint 10 5 1 (by decide) (by decide)⟩

/-- Claim C10: for every integer `port_no`, `SwitchAdapter.switchPort`
raises `ValueError` exactly when `port_no < 0` or `port_no > 11`, with all
five GPIO control pins left unchanged (the range check precedes any pin
assignment); for `port_no` in `[0, 11]` it sets the LS pin to 0 and sets the
four V pins to a combination distinct for each distinct port number. -/
theorem switch_port_spec (port : ℤ) (s : PinState) :
    ((switchPort port s).2.isSome ↔ (port < 0 ∨ 11 < port)) ∧
    ((port < 0 ∨ 11 < port) → (switchPort port s).1 = s) ∧
    ((0 ≤ port ∧ port ≤ 11) → (switchPort port s).1.ls = 0) ∧
    (∀ q : ℤ, (0 ≤ port ∧ port ≤ 11) → (0 ≤ q ∧ q ≤ 11) →
      ((switchPort port s).1.v1 = (switchPort q s).1.v1 ∧
       (switchPort port s).1.v2 = (switchPort q s).1.v2 ∧
       (switchPort port s).1.v3 = (switchPort q s).1.v3 ∧
       (switchPort port s).1.v4 = (switchPort q s).1.v4) → port = q) := by
  refine ⟨?_, ?_, ?_, ?_⟩
  · constructor
    · intro hs
      by_contra hc
      push_neg at hc
      rw [switchPort, if_neg (not_not_intro hc)] at hs
      simp at hs
    · intro hv
      rw [switchPort, if_pos (by omega : ¬(0 ≤ port ∧ port ≤ 11))]
      rfl
  · intro hv
    rw [switchPort, if_pos (by omega : ¬(0 ≤ port ∧ port ≤ 11))]
  · intro hv
    rw [switchPort_valid port s hv]
  · intro q hp hq heq
    rw [switchPort_valid port s hp, switchPort_valid q s hq] at heq
    simp only at heq
    obtain ⟨e1, e2, e3, e4⟩ := heq
    have hp' : port.toNat < 12 := by omega
    have hq' : q.toNat < 12 := by omega
    have hfin := controlBits_inj ⟨port.toNat, hp'⟩ ⟨q.toNat, hq'⟩ e4 e3 e2 e1
    have hnat : port.toNat = q.toNat := congrArg Fin.val hfin
    omega

/-- Witness for C10: out-of-range port 12 leaves the pins untouched; port 3
drives LS low. -/
theorem switch_port_spec_witness :
    ((switchPort 12 ⟨9, 9, 9, 9, 9⟩).1 = ⟨9, 9, 9, 9, 9⟩) ∧
    ((switchPort 3 ⟨9, 9, 9, 9, 9⟩).1.ls = 0) :=
  ⟨(switch_port_spec 12 ⟨9, 9, 9, 9, 9⟩).2.1 (by decide),
   (switch_port_spec 3 ⟨9, 9, 9, 9, 9⟩).2.2.1 (by decide)⟩

/-- Claim C2: `_detect_bit` computes its magnitudes as
`20 * log10(|sample|)` (the `s11DbVal` entries that `loVals`/`hiVals` mask)
and decides in fixed order on the windowed minima: low-window dip ≤
threshold gives 0, else high-window dip ≤ threshold gives 1, else
undetermined (`None`). Consequently an input that dips below the threshold
in both windows is decided 0, never 1. -/
theorem detect_bit_fixed_order (cfg : MuxConfig) (fs : List ℝ) (s : List ℂ)
    (hlo : loVals cfg fs s ≠ []) (hhi : hiVals cfg fs s ≠ []) :
    detectBit cfg fs s =
      .ok (if (loVals cfg fs s).min?.getD ⊥ ≤ ((cfg.threshold : ℝ) : WithBot ℝ)
        then BitDecision.zero
        else if (hiVals cfg fs s).min?.getD ⊥ ≤ ((cfg.threshold : ℝ) : WithBot ℝ)
        then BitDecision.one
        else BitDecision.undetermined) ∧
    (((loVals cfg fs s).min?.getD ⊥ ≤ ((cfg.threshold : ℝ) : WithBot ℝ) ∧
      (hiVals cfg fs s).min?.getD ⊥ ≤ ((cfg.threshold : ℝ) : WithBot ℝ)) →
      detectBit cfg fs s = .ok BitDecision.zero) := by
  obtain ⟨a, la, ha⟩ := List.exists_cons_of_ne_nil hlo
  obtain ⟨b, lb, hb⟩ := List.exists_cons_of_ne_nil hhi
  have hmlo : (loVals cfg fs s).min? = some (la.foldl min a) := by
    rw [ha]
    rfl
  have hmhi : (hiVals cfg fs s).min? = some (lb.foldl min b) := by
    rw [hb]
    rfl
  have hchar : detectBit cfg fs s =
      .ok (if (loVals cfg fs s).min?.getD ⊥ ≤ ((cfg.threshold : ℝ) : WithBot ℝ)
        then BitDecision.zero
        else if (hiVals cfg fs s).min?.getD ⊥ ≤ ((cfg.threshold : ℝ) : WithBot ℝ)
        then BitDecision.one
        else BitDecision.undetermined) := by
    rw [detectBit, hmlo, hmhi]
    simp only [Option.getD_some]
    split_ifs <;> rfl
  refine ⟨hchar, fun hboth => ?_⟩
  rw [hchar, if_pos hboth.1]

/-- Witness for C2 with the src/rf_mux.py configuration (threshold −10 dB):
a sample of magnitude `1/100` (−40 dB) in each window dips below the
threshold in both windows, and the decision is bit 0, not 1. -/
theorem detect_bit_fixed_order_witness :
    (loVals ⟨10, 5, 1, -10⟩ [(10 : ℝ) * 10 ^ 6, 16 * 10 ^ 6]
        [((1 : ℂ) / 100), (1 : ℂ) / 100] ≠ []) ∧
    (hiVals ⟨10, 5, 1, -10⟩ [(10 : ℝ) * 10 ^ 6, 16 * 10 ^ 6]
        [((1 : ℂ) / 100), (1 : ℂ) / 100] ≠ []) ∧
    detectBit ⟨10, 5, 1, -10⟩ [(10 : ℝ) * 10 ^ 6, 16 * 10 ^ 6]
        [((1 : ℂ) / 100), (1 : ℂ) / 100] = .ok BitDecision.zero := by
  have hdb : s11DbVal ((1 : ℂ) / 100) = ((-40 : ℝ) : WithBot ℝ) := by
    have habs : Complex.abs ((1 : ℂ) / 100) = 1 / 100 := by
      rw [map_div₀]
      simp
    have hlogb : Real.logb 10 (1 / 100) = -2 := by
      rw [Real.logb, show (1 / 100 : ℝ) = ((10 : ℝ) ^ (2 : ℕ))⁻¹ by norm_num,
        Real.log_inv, Real.log_pow]
      have h10 : Real.log 10 ≠ 0 := ne_of_gt (Real.log_pos (by norm_num))
      field_simp
    rw [s11DbVal, if_neg (by rw [habs]; norm_num)]
    rw [habs, hlogb]
    norm_num
  have hloeq : loVals ⟨10, 5, 1, -10⟩ [(10 : ℝ) * 10 ^ 6, 16 * 10 ^ 6]
      [((1 : ℂ) / 100), (1 : ℂ) / 100] = [s11DbVal ((1 : ℂ) / 100)] := by
    norm_num [loVals, windowVals, List.zip, List.zipWith, List.filter]
  have hhieq : hiVals ⟨10, 5, 1, -10⟩ [(10 : ℝ) * 10 ^ 6, 16 * 10 ^ 6]
      [((1 : ℂ) / 100), (1 : ℂ) / 100] = [s11DbVal ((1 : ℂ) / 100)] := by
    norm_num [hiVals, windowVals, List.zip, List.zipWith, List.filter, hiStart]
  have hlo : loVals ⟨10, 5, 1, -10⟩ [(10 : ℝ) * 10 ^ 6, 16 * 10 ^ 6]
      [((1 : ℂ) / 100), (1 : ℂ) / 100] ≠ [] := by
    rw [hloeq]
    simp
  have hhi : hiVals ⟨10, 5, 1, -10⟩ [(10 : ℝ) * 10 ^ 6, 16 * 10 ^ 6]
      [((1 : ℂ) / 100), (1 : ℂ) / 100] ≠ [] := by
    rw [hhieq]
    simp
  have hdip : ((-40 : ℝ) : WithBot ℝ) ≤ (((-10 : ℤ) : ℝ) : WithBot ℝ) := by
    rw [WithBot.coe_le_coe]
    norm_num
  refine ⟨hlo, hhi, (detect_bit_fixed_order _ _ _ hlo hhi).2 ⟨?_, ?_⟩⟩
  · rw [hloeq, hdb]
    exact hdip
  · rw [hhieq, hdb]
    exact hdip

/-- Claim C6: when a configured detection window captures no sample of the
frequency axis, `_detect_bit` fails before returning any decision: `np.min`
over the empty masked array raises (the condition the spec's error taxonomy
names `ConfigurationError`), so neither a bit nor a NaN comparison is
produced. -/
theorem detect_bit_empty_window (cfg : MuxConfig) (fs : List ℝ) (s : List ℂ)
    (h : loVals cfg fs s = [] ∨ hiVals cfg fs s = []) :
    detectBit cfg fs s = .error .emptyWindow := by
  rcases h with h | h
  · rw [detectBit, h]
    rfl
  · rw [detectBit, h]
    rcases hm : (loVals cfg fs s).min? with _ | a
    · rfl
    · rfl

/-- Witness for C6: an empty frequency axis gives empty detection windows,
and the detection fails instead of deciding. -/
theorem detect_bit_empty_window_witness :
    (loVals ⟨10, 5, 1, -10⟩ [] [] = [] ∨ hiVals ⟨10, 5, 1, -10⟩ [] [] = []) ∧
    detectBit ⟨10, 5, 1, -10⟩ [] [] = .error .emptyWindow :=
  ⟨Or.inl rfl, detect_bit_empty_window _ _ _ (Or.inl rfl)⟩

end HAT
